import Mathlib

/-
Verification development for the flask-influxdb-response-log middleware
(src/flask_influxdb_response_log/FlaskInfluxDBResponseLog.py).

The development shallowly embeds the capture-normalize-filter-persist
pipeline of the `after_request` hook, together with the configuration
processing done in `init_app`.  Python `json.dumps`/`json.loads` (for the
values the pipeline can see: None, booleans, integers, strings, arrays,
objects with string keys in insertion order) are embedded as `dumps`/`loads`
over the `Json` type; `bytes.decode('utf-8')` is embedded as `utf8Decode`.
Exceptions are modelled explicitly: the pipeline result records an escaping
exception, the commit attempts, the error-callback invocations, and the
order of the pipeline's observable steps.
-/

namespace ResponseLog

/-! ### JSON values

Model of the JSON data the pipeline handles.  Numbers are modelled as
integers (floating point is outside the model).  Objects keep insertion
order, like Python dicts and `json.dumps`. -/

mutual

inductive Json : Type where
  | null : Json
  | bool : Bool → Json
  | num : Int → Json
  | str : List Char → Json
  | arr : JsonList → Json
  | obj : JsonMembers → Json

inductive JsonList : Type where
  | nil : JsonList
  | cons : Json → JsonList → JsonList

inductive JsonMembers : Type where
  | nil : JsonMembers
  | cons : List Char → Json → JsonMembers → JsonMembers

end

def lbrace : Char := Char.ofNat 123

def rbrace : Char := Char.ofNat 125

def digitChar (d : Nat) : Char := Char.ofNat (48 + d)

/-- Base-10 digits of `n`, least significant first; fuel keeps the
definition kernel-reducible (`natDigits_eq` relates it to `Nat.digits`). -/
def natDigitsAux : Nat → Nat → List Nat
  | 0, _ => []
  | fuel+1, n => if n = 0 then [] else (n % 10) :: natDigitsAux fuel (n / 10)

def natDigits (n : Nat) : List Nat := natDigitsAux n n

/-- Decimal rendering of a natural number, as `str(int)` does. -/
def dumpsNat (n : Nat) : List Char :=
  if n = 0 then [digitChar 0] else (natDigits n).reverse.map digitChar

/-- Decimal rendering of an integer, as `str(int)` does. -/
def dumpsInt (i : Int) : List Char :=
  if i < 0 then '-' :: dumpsNat i.natAbs else dumpsNat i.natAbs

/-- JSON string escaping for the quote and backslash characters. -/
def escChar (c : Char) : List Char := if c = '"' ∨ c = '\\' then ['\\', c] else [c]

def escape (s : List Char) : List Char := s.foldr (fun c acc => escChar c ++ acc) []

/-- A JSON string literal: quoted, escaped. -/
def dumpsKey (k : List Char) : List Char := '"' :: escape k ++ ['"']

/- Embedding of `json.dumps(value, separators=(',', ':'))`: compact
serialization, no inserted whitespace, object members kept in order. -/
mutual

def dumps : Json → List Char
  | .null => "null".data
  | .bool true => "true".data
  | .bool false => "false".data
  | .num i => dumpsInt i
  | .str s => dumpsKey s
  | .arr xs => '[' :: dumpsArr xs ++ [']']
  | .obj ms => lbrace :: dumpsObj ms ++ [rbrace]
termination_by structural v => v

def dumpsArr : JsonList → List Char
  | .nil => []
  | .cons x .nil => dumps x
  | .cons x (.cons y t) => dumps x ++ ',' :: dumpsArr (.cons y t)
termination_by structural v => v

def dumpsObj : JsonMembers → List Char
  | .nil => []
  | .cons k v .nil => dumpsKey k ++ ':' :: dumps v
  | .cons k v (.cons k2 v2 t) => dumpsKey k ++ ':' :: dumps v ++ ',' :: dumpsObj (.cons k2 v2 t)
termination_by structural v => v

end

/- Fuel measure used to run the parser on serialized values. -/
mutual

def sizeJ : Json → Nat
  | .null => 1
  | .bool _ => 1
  | .num _ => 1
  | .str _ => 1
  | .arr xs => 1 + sizeL xs
  | .obj ms => 1 + sizeM ms
termination_by structural v => v

def sizeL : JsonList → Nat
  | .nil => 0
  | .cons x t => 1 + Nat.max (sizeJ x) (sizeL t)
termination_by structural v => v

def sizeM : JsonMembers → Nat
  | .nil => 0
  | .cons _ v t => 1 + Nat.max (sizeJ v) (sizeM t)
termination_by structural v => v

end

/-! ### JSON parsing (embedding of `json.loads`) -/

def isWsChar (c : Char) : Bool := c = ' ' || c = '\t' || c = '\n' || c = '\r'

def skipWs : List Char → List Char
  | [] => []
  | c :: r => if isWsChar c then skipWs r else c :: r

/-- Consume a maximal run of decimal digits, accumulating their value. -/
def parseDigits : List Char → Nat → Nat × List Char
  | [], acc => (acc, [])
  | c :: r, acc => if c.isDigit then parseDigits r (acc * 10 + (c.toNat - 48)) else (acc, c :: r)

/- Consume a JSON string body up to the closing quote, unescaping; an
escaped character stands for itself (the code only ever escapes the quote
and the backslash). -/
mutual

def parseStringBody : List Char → Option (List Char × List Char)
  | [] => none
  | c :: r =>
    if c = '\\' then parseEsc r
    else if c = '"' then some ([], r)
    else (parseStringBody r).map (fun p => (c :: p.1, p.2))
termination_by structural s => s

def parseEsc : List Char → Option (List Char × List Char)
  | [] => none
  | e :: r2 => (parseStringBody r2).map (fun p => (e :: p.1, p.2))
termination_by structural s => s

end

/-- Match an expected literal tail, yielding the given value. -/
def parseLit : List Char → Json → List Char → Option (Json × List Char)
  | [], v, r => some (v, r)
  | e :: es, v, r =>
    match r with
    | [] => none
    | c :: r2 => if c = e then parseLit es v r2 else none

/-- Parse the digits of a negative number (the sign is already consumed). -/
def parseNeg : List Char → Option (Json × List Char)
  | [] => none
  | d :: t =>
    if d.isDigit then
      (fun p => some (Json.num (-(p.1 : Int)), p.2)) (parseDigits (d :: t) 0)
    else none

mutual

def parseVal : Nat → List Char → Option (Json × List Char)
  | 0, _ => none
  | n+1, s =>
    match skipWs s with
    | [] => none
    | c :: r =>
      if c = '"' then (parseStringBody r).map (fun p => (Json.str p.1, p.2))
      else if c = '[' then
        match skipWs r with
        | [] => none
        | d :: r2 =>
          if d = ']' then some (Json.arr .nil, r2)
          else (parseElems n r).map (fun p => (Json.arr p.1, p.2))
      else if c = lbrace then
        match skipWs r with
        | [] => none
        | d :: r2 =>
          if d = rbrace then some (Json.obj .nil, r2)
          else (parseMembers n r).map (fun p => (Json.obj p.1, p.2))
      else if c = 'n' then parseLit ['u','l','l'] Json.null r
      else if c = 't' then parseLit ['r','u','e'] (Json.bool true) r
      else if c = 'f' then parseLit ['a','l','s','e'] (Json.bool false) r
      else if c = '-' then parseNeg r
      else if c.isDigit then
        (fun p => some (Json.num (p.1 : Int), p.2)) (parseDigits (c :: r) 0)
      else none

def parseElems : Nat → List Char → Option (JsonList × List Char)
  | 0, _ => none
  | n+1, s =>
    match parseVal n s with
    | none => none
    | some (v, r) =>
      match skipWs r with
      | [] => none
      | d :: r2 =>
        if d = ',' then (parseElems n r2).map (fun p => (JsonList.cons v p.1, p.2))
        else if d = ']' then some (JsonList.cons v .nil, r2)
        else none

def parseMembers : Nat → List Char → Option (JsonMembers × List Char)
  | 0, _ => none
  | n+1, s =>
    match skipWs s with
    | [] => none
    | c :: r =>
      if c = '"' then
        match parseStringBody r with
        | none => none
        | some (k, r2) =>
          match skipWs r2 with
          | [] => none
          | d3 :: r3 =>
            if d3 = ':' then
              match parseVal n r3 with
              | none => none
              | some (v, r4) =>
                match skipWs r4 with
                | [] => none
                | d :: r5 =>
                  if d = ',' then (parseMembers n r5).map (fun p => (JsonMembers.cons k v p.1, p.2))
                  else if d = rbrace then some (JsonMembers.cons k v .nil, r5) else none
            else none
      else none

end

/-- Embedding of `json.loads`: parse one JSON document, allowing only
trailing whitespace; `none` models a raised `json.JSONDecodeError`. -/
def loads (s : List Char) : Option Json :=
  match parseVal (s.length + 1) s with
  | some (v, rest) => if skipWs rest = [] then some v else none
  | none => none

/-! ### UTF-8 decoding (embedding of `bytes.decode('utf-8')`) -/

/-- Incremental strict UTF-8 decoder: `needed` pending continuation bytes,
`acc` the partial code point, `lo` the smallest code point admissible for
the current sequence (rejecting overlong encodings); surrogates and code
points above U+10FFFF are rejected, as CPython does. -/
def utf8DecodeAux : List Nat → Nat → Nat → Nat → List Char → Option (List Char)
  | [], 0, _, _, out => some out.reverse
  | [], _+1, _, _, _ => none
  | b :: rest, 0, _, _, out =>
    if b < 128 then utf8DecodeAux rest 0 0 0 (Char.ofNat b :: out)
    else if b < 194 then none
    else if b ≤ 223 then utf8DecodeAux rest 1 (b - 192) 128 out
    else if b ≤ 239 then utf8DecodeAux rest 2 (b - 224) 2048 out
    else if b ≤ 244 then utf8DecodeAux rest 3 (b - 240) 65536 out
    else none
  | b :: rest, n+1, acc, lo, out =>
    if 128 ≤ b ∧ b ≤ 191 then
      match n with
      | 0 =>
        if lo ≤ acc * 64 + (b - 128) ∧ acc * 64 + (b - 128) ≤ 1114111 ∧
            (acc * 64 + (b - 128) < 55296 ∨ 57343 < acc * 64 + (b - 128)) then
          utf8DecodeAux rest 0 0 0 (Char.ofNat (acc * 64 + (b - 128)) :: out)
        else none
      | m+1 => utf8DecodeAux rest (m+1) (acc * 64 + (b - 128)) lo out
    else none

/-- Embedding of `bytes.decode('utf-8')`; `none` models a raised
`UnicodeDecodeError`. -/
def utf8Decode (bs : List Nat) : Option (List Char) := utf8DecodeAux bs 0 0 0 []

/-! ### Configuration processing (embedding of `init_app`) -/

/-- A Flask configuration value, at the granularity the code inspects:
`app.config.get` may yield nothing (absent key, Python `None`), or a value
of some non-list type, or a list of status codes. -/
inductive ConfVal : Type where
  | pyNone : ConfVal
  | int : Int → ConfVal
  | str : List Char → ConfVal
  | bool : Bool → ConfVal
  | list : List Int → ConfVal

def ConfVal.isList : ConfVal → Bool
  | .list _ => true
  | _ => false

/-- Lines 73-75: `status_code_only = app.config.get(...)`, replaced by `[]`
whenever `type(status_code_only) != list`. -/
def initStatusList : ConfVal → List Int
  | .list l => l
  | _ => []

/-- Line 78: `filter_status_code = len(status_code_only) > 0`. -/
def filterStatusCode (l : List Int) : Bool := decide (0 < l.length)

/-- Lines 83-85: the measurement name; `None` (absent key) is modelled as
`none`.  The `== ''` comparison is false for Python `None`. -/
def initMeasurement : Option (List Char) → Option (List Char)
  | some s => if s = [] then some ("response_log".data) else some s
  | none => none

/-! ### The after-request pipeline (embedding of `after_request`) -/

/-- View of the Flask request object, with the attributes the hook reads.
`query_string` and `body` are raw bytes; header entries are lists of
strings (the code keeps only well-formed two-element entries). -/
structure RequestView : Type where
  path : List Char
  method : List Char
  remote_addr : Option (List Char)
  full_path : List Char
  query_string : List Nat
  headers : List (List (List Char))
  body : List Nat

/-- View of the Flask response object.  `data = none` models
`response.get_data(as_text=True)` raising `RuntimeError` (file-backed
responses), which the code catches. -/
structure ResponseView : Type where
  status_code : Int
  content_type : List Char
  data : Option (List Char)

/-- One record handed to the InfluxDB series helper (lines 201-215).
`none` in an optional field is Python `None`. -/
structure Record : Type where
  time : List Char
  namespace_ : Option (List Char)
  path : List Char
  method : List Char
  remote_addr : Option (List Char)
  full_path : List Char
  payload : Option (List Char)
  headers : List Char
  status_code : Int
  query_string : List Char
  response : List Char
  response_time : List Char
  response_content_type : List Char

/-- An exception class that can escape the hook. -/
inductive PyErr : Type where
  | unicodeDecodeError : PyErr

/-- Observable steps of one pipeline run, in execution order. -/
inductive Event : Type where
  | started : Event
  | filtered : Bool → Event
  | built : Event
  | commitAttempt : Bool → Event

/-- Result of one execution of the `after_request` hook.  `error` is an
exception escaping the hook (in Flask it replaces the response with a 500);
`returned` is the response the hook returns when no exception escapes;
`record` is the record handed to the series helper, if any; `commits`
counts commit attempts; `callbackCalls` lists the errors passed to the
registered error callback, in order. -/
structure Run (ε : Type) : Type where
  error : Option PyErr
  returned : Option ResponseView
  record : Option Record
  commits : Nat
  callbackCalls : List ε
  trace : List Event

/-- Lines 139-142: the status filter decision. -/
def logResponse (l : List Int) (status : Int) : Bool :=
  if filterStatusCode l = false then true
  else if l.contains status = false then false else true

/-- Lines 153-154: `request.headers.to_wsgi_list()` folded into a dict,
keeping only two-element entries; later values overwrite earlier ones while
the key keeps its first insertion position, as for a Python dict. -/
def dictInsert : List (List Char × List Char) → List Char → List Char →
    List (List Char × List Char)
  | [], k, v => [(k, v)]
  | (k2, v2) :: t, k, v => if k2 = k then (k2, v) :: t else (k2, v2) :: dictInsert t k v

def headersDictAux : List (List (List Char)) → List (List Char × List Char) →
    List (List Char × List Char)
  | [], acc => acc
  | e :: t, acc =>
    match e with
    | [k, v] => headersDictAux t (dictInsert acc k v)
    | _ => headersDictAux t acc

def headersDict (hs : List (List (List Char))) : List (List Char × List Char) :=
  headersDictAux hs []

/-- Association-list lookup, as `dict[key]` / `key in dict`. -/
def dictFind : List (List Char × List Char) → List Char → Option (List Char)
  | [], _ => none
  | (k2, v2) :: t, k => if k2 = k then some v2 else dictFind t k

/-- Lines 155-157: `json_expected` is true iff the collapsed header dict
maps `Content-Type` to exactly `application/json`. -/
def jsonExpected (d : List (List Char × List Char)) : Bool :=
  match dictFind d ("Content-Type".data) with
  | some v => v = "application/json".data
  | none => false

def membersOfDict : List (List Char × List Char) → JsonMembers
  | [] => .nil
  | (k, v) :: t => .cons k (.str v) (membersOfDict t)

/-- Lines 189-192: `json.dumps(headers_js, separators=(',', ':'))`; the
`except json.JSONDecodeError` branch is dead (`dumps` never raises it). -/
def headersJsonChars (d : List (List Char × List Char)) : List Char :=
  dumps (Json.obj (membersOfDict d))

/-- Line 161: `request.get_json(silent=True)`: decode the body, parse it as
JSON; any failure yields Python `None`. -/
def getJsonSilent (body : List Nat) : Option Json :=
  match utf8Decode body with
  | some s => loads s
  | none => none

/-- Lines 160-172: the request payload.  In the JSON branch the
`is not None` test conflates a parse failure with a parsed JSON `null`,
both leaving the payload as Python `None`.  In the other branch
`request.get_data().decode('utf-8')` raises `UnicodeDecodeError` on
malformed UTF-8, which `except UnicodeEncodeError` does not catch, so the
exception escapes. -/
def reqPayload (jexp : Bool) (body : List Nat) : Except PyErr (Option (List Char)) :=
  if jexp then
    .ok (match getJsonSilent body with
      | none => none
      | some .null => none
      | some v => some (dumps v))
  else
    match utf8Decode body with
    | some s => .ok (some s)
    | none => .error .unicodeDecodeError

/-- Lines 177-181: response body text, `''` when `get_data` raises
`RuntimeError`. -/
def respDataOf (resp : ResponseView) : List Char :=
  match resp.data with
  | some s => s
  | none => []

/-- Lines 183-187: for an `application/json` response, re-serialize the
parsed body compactly; on `json.JSONDecodeError` keep the raw text. -/
def normRespData (ct : List Char) (s : List Char) : List Char :=
  if ct = "application/json".data then
    match loads s with
    | some v => dumps v
    | none => s
  else s

/-- Lines 194-198: query-string decoding; on malformed UTF-8 the
`UnicodeDecodeError` escapes (the code catches `UnicodeEncodeError`). -/
def queryStringDecoded (qs : List Nat) : Except PyErr (List Char) :=
  match utf8Decode qs with
  | some s => .ok s
  | none => .error .unicodeDecodeError

/-- The `after_request` hook (lines 130-223) for one request, parameterized
by the outcome `sink` the InfluxDB client write would have (`.ok` on
success, `.error e` when `commit` raises `e`) and by whether an error
callback is registered (`hasCallback`, lines 58-65). -/
def buildRecord (ns : Option (List Char)) (req : RequestView) (resp : ResponseView)
    (payload : Option (List Char)) (qs : List Char)
    (startTimeIso respTime : List Char) : Record :=
  { time := startTimeIso, namespace_ := ns, path := req.path,
    method := req.method, remote_addr := req.remote_addr,
    full_path := req.full_path, payload := payload,
    headers := headersJsonChars (headersDict req.headers),
    status_code := resp.status_code, query_string := qs,
    response := normRespData resp.content_type (respDataOf resp),
    response_time := respTime, response_content_type := resp.content_type }

def afterRequest {ε : Type} (statusCodeOnly : List Int) (ns : Option (List Char))
    (hasCallback : Bool) (req : RequestView) (resp : ResponseView)
    (sink : Except ε Unit) (startTimeIso respTime : List Char) : Run ε :=
  if logResponse statusCodeOnly resp.status_code = false then
    { error := none, returned := some resp, record := none, commits := 0,
      callbackCalls := [], trace := [.started, .filtered false] }
  else
    match reqPayload (jsonExpected (headersDict req.headers)) req.body with
    | .error e =>
      { error := some e, returned := none, record := none, commits := 0,
        callbackCalls := [], trace := [.started, .filtered true] }
    | .ok payload =>
      match queryStringDecoded req.query_string with
      | .error e =>
        { error := some e, returned := none, record := none, commits := 0,
          callbackCalls := [], trace := [.started, .filtered true] }
      | .ok qs =>
        match sink with
        | .ok _ =>
          { error := none, returned := some resp,
            record := some (buildRecord ns req resp payload qs startTimeIso respTime),
            commits := 1, callbackCalls := [],
            trace := [.started, .filtered true, .built, .commitAttempt true] }
        | .error e =>
          { error := none, returned := some resp,
            record := some (buildRecord ns req resp payload qs startTimeIso respTime),
            commits := 1, callbackCalls := if hasCallback then [e] else [],
            trace := [.started, .filtered true, .built, .commitAttempt false] }

/-! ### Serialization/parsing roundtrip: `loads (dumps v) = some v` -/

theorem natDigitsAux_eq : ∀ fuel n, n ≤ fuel → natDigitsAux fuel n = Nat.digits 10 n := by
  intro fuel
  induction fuel with
  | zero =>
    intro n hn
    interval_cases n
    simp [natDigitsAux]
  | succ f ih =>
    intro n hn
    by_cases h0 : n = 0
    · simp [natDigitsAux, h0]
    · rw [natDigitsAux, if_neg h0,
        Nat.digits_def' (by norm_num : 1 < 10) (Nat.pos_of_ne_zero h0),
        ih (n / 10) (by omega)]

theorem natDigits_eq (n : Nat) : natDigits n = Nat.digits 10 n :=
  natDigitsAux_eq n n le_rfl

theorem digitChar_facts {d : Nat} (h : d < 10) :
    (digitChar d).isDigit = true ∧ (digitChar d).toNat = 48 + d ∧
    isWsChar (digitChar d) = false ∧ digitChar d ≠ '"' ∧ digitChar d ≠ '[' ∧
    digitChar d ≠ lbrace ∧ digitChar d ≠ 'n' ∧ digitChar d ≠ 't' ∧
    digitChar d ≠ 'f' ∧ digitChar d ≠ '-' ∧ digitChar d ≠ ']' ∧ digitChar d ≠ ',' ∧
    digitChar d ≠ rbrace := by
  interval_cases d <;> exact (by decide)

/-- Predicate on a trailing suffix: parsing a serialized number followed by
this suffix stops at the right place. -/
def noDigitHead : List Char → Prop
  | [] => True
  | c :: _ => c.isDigit = false

theorem parseDigits_stop {r : List Char} (h : noDigitHead r) (acc : Nat) :
    parseDigits r acc = (acc, r) := by
  cases r with
  | nil => rfl
  | cons c t =>
    simp only [noDigitHead] at h
    simp [parseDigits, h]

theorem parseDigits_run (ds : List Nat) (hds : ∀ d ∈ ds, d < 10) (acc : Nat)
    (r : List Char) (hr : noDigitHead r) :
    parseDigits (ds.map digitChar ++ r) acc
      = (ds.foldl (fun a d => a * 10 + d) acc, r) := by
  induction ds generalizing acc with
  | nil => simpa using parseDigits_stop hr acc
  | cons d t ih =>
    have hd : d < 10 := hds d (by simp)
    obtain ⟨h1, h2, -⟩ := digitChar_facts hd
    simp only [List.map_cons, List.cons_append, parseDigits, h1, if_true, h2,
      List.foldl_cons]
    rw [show 48 + d - 48 = d by omega]
    exact ih (fun x hx => hds x (by simp [hx])) _

theorem foldl_digits_reverse (L : List Nat) (acc : Nat) :
    List.foldl (fun a d => a * 10 + d) acc L.reverse
      = acc * 10 ^ L.length + Nat.ofDigits 10 L := by
  induction L generalizing acc with
  | nil => simp
  | cons d t ih =>
    rw [List.reverse_cons, List.foldl_append, ih acc]
    simp only [List.foldl_cons, List.foldl_nil, Nat.ofDigits_cons, List.length_cons]
    ring

theorem parseDigits_dumpsNat (n : Nat) (r : List Char) (hr : noDigitHead r) :
    parseDigits (dumpsNat n ++ r) 0 = (n, r) := by
  by_cases h0 : n = 0
  · subst h0
    simpa using parseDigits_run [0] (by simp) 0 r hr
  · rw [dumpsNat, if_neg h0, natDigits_eq,
      parseDigits_run _ (fun d hd => Nat.digits_lt_base (by norm_num)
        (List.mem_reverse.mp hd)) 0 r hr,
      foldl_digits_reverse]
    simp [Nat.ofDigits_digits]

theorem dumpsNat_shape (n : Nat) : ∃ d t, d < 10 ∧ dumpsNat n = digitChar d :: t := by
  by_cases h0 : n = 0
  · exact ⟨0, [], by norm_num, by simp [dumpsNat, h0]⟩
  · have hne : (Nat.digits 10 n).reverse ≠ [] := by
      simp [Nat.digits_ne_nil_iff_ne_zero, h0]
    obtain ⟨d, L, hL⟩ := List.exists_cons_of_ne_nil hne
    refine ⟨d, L.map digitChar, ?_, ?_⟩
    · exact Nat.digits_lt_base (by norm_num)
        (List.mem_reverse.mp (hL ▸ List.mem_cons_self d L))
    · rw [dumpsNat, if_neg h0, natDigits_eq, hL, List.map_cons]

theorem escape_cons (c : Char) (t : List Char) :
    escape (c :: t) = escChar c ++ escape t := rfl

theorem parseStringBody_escape (s r : List Char) :
    parseStringBody (escape s ++ '"' :: r) = some (s, r) := by
  induction s with
  | nil => rfl
  | cons c t ih =>
    rw [escape_cons, escChar]
    by_cases hc : c = '"' ∨ c = '\\'
    · rw [if_pos hc]
      simp only [List.cons_append, List.append_assoc, parseStringBody, if_pos rfl]
      simp [parseEsc, ih]
    · rw [if_neg hc]
      push_neg at hc
      simp [parseStringBody, hc.1, hc.2, ih]

theorem skipWs_cons {c : Char} (r : List Char) (h : isWsChar c = false) :
    skipWs (c :: r) = c :: r := by
  simp [skipWs, h]

theorem sizeJ_pos (v : Json) : 1 ≤ sizeJ v := by
  cases v <;> simp [sizeJ]

theorem dumps_head (v : Json) :
    ∃ c t, dumps v = c :: t ∧ isWsChar c = false ∧ c ≠ ']' ∧ c ≠ rbrace := by
  cases v with
  | null => exact ⟨'n', _, rfl, by decide, by decide, by decide⟩
  | bool b =>
    cases b with
    | false => exact ⟨'f', _, rfl, by decide, by decide, by decide⟩
    | true => exact ⟨'t', _, rfl, by decide, by decide, by decide⟩
  | num i =>
    rw [show dumps (Json.num i) = dumpsInt i from rfl, dumpsInt]
    by_cases hi : i < 0
    · rw [if_pos hi]
      exact ⟨'-', _, rfl, by decide, by decide, by decide⟩
    · rw [if_neg hi]
      obtain ⟨d, t, hd, ht⟩ := dumpsNat_shape i.natAbs
      obtain ⟨-, -, h3, -, -, -, -, -, -, -, h11, -, h13⟩ := digitChar_facts hd
      exact ⟨_, t, ht, h3, h11, h13⟩
  | str s => exact ⟨'"', _, rfl, by decide, by decide, by decide⟩
  | arr xs => exact ⟨'[', _, rfl, by decide, by decide, by decide⟩
  | obj ms => exact ⟨lbrace, _, rfl, by decide, by decide, by decide⟩

theorem dumpsArr_head (x : Json) (t : JsonList) :
    ∃ c s, dumpsArr (.cons x t) = c :: s ∧ isWsChar c = false ∧ c ≠ ']' ∧ c ≠ rbrace := by
  obtain ⟨c, s, hcs, h1, h2, h3⟩ := dumps_head x
  cases t with
  | nil => exact ⟨c, s, by rw [dumpsArr, hcs], h1, h2, h3⟩
  | cons y u =>
    exact ⟨c, s ++ ',' :: dumpsArr (.cons y u), by rw [dumpsArr, hcs]; simp, h1, h2, h3⟩


theorem dumpsObj_head (k : List Char) (v : Json) (t : JsonMembers) :
    ∃ s, dumpsObj (.cons k v t) = '"' :: s := by
  cases t with
  | nil => exact ⟨escape k ++ ['"'] ++ ':' :: dumps v, by rw [dumpsObj, dumpsKey]; simp⟩
  | cons k2 v2 u =>
    exact ⟨escape k ++ ['"'] ++ ':' :: dumps v ++ ',' :: dumpsObj (.cons k2 v2 u),
      by rw [dumpsObj, dumpsKey]; simp⟩

theorem noDigitHead_cons {c : Char} (r : List Char) (h : c.isDigit = false) :
    noDigitHead (c :: r) := h

theorem skipWs_quot (r : List Char) : skipWs ('"' :: r) = '"' :: r :=
  skipWs_cons r (by decide)

theorem skipWs_colon (r : List Char) : skipWs (':' :: r) = ':' :: r :=
  skipWs_cons r (by decide)

theorem skipWs_comma (r : List Char) : skipWs (',' :: r) = ',' :: r :=
  skipWs_cons r (by decide)

theorem skipWs_rsq (r : List Char) : skipWs (']' :: r) = ']' :: r :=
  skipWs_cons r (by decide)

theorem skipWs_rbrace (r : List Char) : skipWs (rbrace :: r) = rbrace :: r :=
  skipWs_cons r (by decide)

theorem rbrace_ne_comma : rbrace ≠ ',' := by decide

theorem nat_le_max_left (a b : Nat) : a ≤ Nat.max a b := Nat.le_max_left a b

theorem nat_le_max_right (a b : Nat) : b ≤ Nat.max a b := Nat.le_max_right a b

/-- Exposed one-step form of `parseVal` on a non-whitespace head. -/
theorem parseVal_cons (n : Nat) (c : Char) (r : List Char) (hw : isWsChar c = false) :
    parseVal (n+1) (c :: r) =
      (if c = '"' then (parseStringBody r).map (fun p => (Json.str p.1, p.2))
      else if c = '[' then
        match skipWs r with
        | [] => none
        | d :: r2 =>
          if d = ']' then some (Json.arr .nil, r2)
          else (parseElems n r).map (fun p => (Json.arr p.1, p.2))
      else if c = lbrace then
        match skipWs r with
        | [] => none
        | d :: r2 =>
          if d = rbrace then some (Json.obj .nil, r2)
          else (parseMembers n r).map (fun p => (Json.obj p.1, p.2))
      else if c = 'n' then parseLit ['u','l','l'] Json.null r
      else if c = 't' then parseLit ['r','u','e'] (Json.bool true) r
      else if c = 'f' then parseLit ['a','l','s','e'] (Json.bool false) r
      else if c = '-' then parseNeg r
      else if c.isDigit then
        (fun p => some (Json.num (p.1 : Int), p.2)) (parseDigits (c :: r) 0)
      else none) := by
  rw [parseVal, skipWs_cons _ hw]

theorem parse_dumps_main : ∀ n : Nat,
    (∀ v r, sizeJ v ≤ n → noDigitHead r →
      parseVal n (dumps v ++ r) = some (v, r)) ∧
    (∀ xs r, xs ≠ JsonList.nil → sizeL xs ≤ n →
      parseElems n (dumpsArr xs ++ ']' :: r) = some (xs, r)) ∧
    (∀ ms r, ms ≠ JsonMembers.nil → sizeM ms ≤ n →
      parseMembers n (dumpsObj ms ++ rbrace :: r) = some (ms, r)) := by
  intro n
  induction n using Nat.strong_induction_on with
  | _ n ih =>
  refine ⟨?_, ?_, ?_⟩
  · intro v r hsz hr
    obtain ⟨m, rfl⟩ : ∃ m, n = m + 1 := by
      have := sizeJ_pos v
      exact ⟨n - 1, by omega⟩
    cases v with
    | null =>
      show parseVal (m+1) (['n','u','l','l'] ++ r) = some (Json.null, r)
      simp only [List.cons_append, List.nil_append]
      rw [parseVal_cons _ _ _ (by decide), if_neg (by decide), if_neg (by decide),
        if_neg (by decide), if_pos (by decide)]
      simp [parseLit]
    | bool b =>
      cases b with
      | true =>
        show parseVal (m+1) (['t','r','u','e'] ++ r) = some (Json.bool true, r)
        simp only [List.cons_append, List.nil_append]
        rw [parseVal_cons _ _ _ (by decide), if_neg (by decide), if_neg (by decide),
          if_neg (by decide), if_neg (by decide), if_pos (by decide)]
        simp [parseLit]
      | false =>
        show parseVal (m+1) (['f','a','l','s','e'] ++ r) = some (Json.bool false, r)
        simp only [List.cons_append, List.nil_append]
        rw [parseVal_cons _ _ _ (by decide), if_neg (by decide), if_neg (by decide),
          if_neg (by decide), if_neg (by decide), if_neg (by decide), if_pos (by decide)]
        simp [parseLit]
    | num i =>
      rcases lt_or_ge i 0 with hi | hi
      · have hd2 : dumps (Json.num i) ++ r = '-' :: (dumpsNat i.natAbs ++ r) := by
          rw [show dumps (Json.num i) = dumpsInt i from rfl, dumpsInt, if_pos hi]
          simp
        obtain ⟨d, t, hdt, ht⟩ := dumpsNat_shape i.natAbs
        obtain ⟨f1, -⟩ := digitChar_facts hdt
        rw [hd2, parseVal_cons _ _ _ (by decide), if_neg (by decide), if_neg (by decide),
          if_neg (by decide), if_neg (by decide), if_neg (by decide), if_neg (by decide),
          if_pos (by decide)]
        rw [ht, List.cons_append, parseNeg, if_pos f1, ← List.cons_append, ← ht,
          parseDigits_dumpsNat i.natAbs r hr]
        have habs : -((i.natAbs : Nat) : Int) = i := by omega
        show some (Json.num (-((i.natAbs : Nat) : Int)), r) = some (Json.num i, r)
        rw [habs]
      · have hd2 : dumps (Json.num i) ++ r = dumpsNat i.natAbs ++ r := by
          rw [show dumps (Json.num i) = dumpsInt i from rfl, dumpsInt, if_neg (by omega)]
        obtain ⟨d, t, hdt, ht⟩ := dumpsNat_shape i.natAbs
        obtain ⟨f1, -, f3, f4, f5, f6, f7, f8, f9, f10, -, -, -⟩ := digitChar_facts hdt
        rw [hd2, ht, List.cons_append, parseVal_cons _ _ _ f3, if_neg f4, if_neg f5,
          if_neg f6, if_neg f7, if_neg f8, if_neg f9, if_neg f10, if_pos f1,
          ← List.cons_append, ← ht, parseDigits_dumpsNat i.natAbs r hr]
        have habs : ((i.natAbs : Nat) : Int) = i := by omega
        show some (Json.num ((i.natAbs : Nat) : Int), r) = some (Json.num i, r)
        rw [habs]
    | str s =>
      have hd2 : dumps (Json.str s) ++ r = '"' :: (escape s ++ '"' :: r) := by
        rw [show dumps (Json.str s) = dumpsKey s from rfl, dumpsKey]
        simp
      rw [hd2, parseVal_cons _ _ _ (by decide), if_pos rfl, parseStringBody_escape]
      rfl
    | arr xs =>
      cases xs with
      | nil =>
        have hd2 : dumps (Json.arr .nil) ++ r = '[' :: (']' :: r) := by
          rw [show dumps (Json.arr .nil) = '[' :: dumpsArr .nil ++ [']'] from rfl, dumpsArr]
          simp
        rw [hd2, parseVal_cons _ _ _ (by decide), if_neg (by decide), if_pos rfl,
          skipWs_rsq]
        simp
      | cons x t =>
        have hd2 : dumps (Json.arr (.cons x t)) ++ r
            = '[' :: (dumpsArr (.cons x t) ++ ']' :: r) := by
          rw [show dumps (Json.arr (.cons x t))
            = '[' :: dumpsArr (.cons x t) ++ [']'] from rfl]
          simp
        obtain ⟨c, s2, hc, hw, hne1, hne2⟩ := dumpsArr_head x t
        rw [hd2, parseVal_cons _ _ _ (by decide), if_neg (by decide), if_pos rfl, hc]
        simp only [List.cons_append]
        rw [skipWs_cons _ hw]
        simp only [if_neg hne1]
        rw [← List.cons_append, ← hc,
          (ih m (by omega)).2.1 (.cons x t) r (by simp)
            (by simp only [sizeJ] at hsz; omega)]
        rfl
    | obj ms =>
      cases ms with
      | nil =>
        have hd2 : dumps (Json.obj .nil) ++ r = lbrace :: (rbrace :: r) := by
          rw [show dumps (Json.obj .nil) = lbrace :: dumpsObj .nil ++ [rbrace] from rfl,
            dumpsObj]
          simp
        rw [hd2, parseVal_cons _ _ _ (by decide), if_neg (by decide), if_neg (by decide),
          if_pos rfl, skipWs_rbrace]
        simp
      | cons k v t =>
        have hd2 : dumps (Json.obj (.cons k v t)) ++ r
            = lbrace :: (dumpsObj (.cons k v t) ++ rbrace :: r) := by
          rw [show dumps (Json.obj (.cons k v t))
            = lbrace :: dumpsObj (.cons k v t) ++ [rbrace] from rfl]
          simp
        obtain ⟨s2, hs2⟩ := dumpsObj_head k v t
        rw [hd2, parseVal_cons _ _ _ (by decide), if_neg (by decide), if_neg (by decide),
          if_pos rfl, hs2]
        simp only [List.cons_append]
        rw [skipWs_quot]
        simp only [if_neg (by decide : ¬(('"' : Char) = rbrace))]
        rw [← List.cons_append, ← hs2,
          (ih m (by omega)).2.2 (.cons k v t) r (by simp)
            (by simp only [sizeJ] at hsz; omega)]
        rfl
  · intro xs r hne hsz
    cases xs with
    | nil => exact absurd rfl hne
    | cons x t =>
      have h1 : 1 + Nat.max (sizeJ x) (sizeL t) ≤ n := by
        simpa [sizeL] using hsz
      obtain ⟨m, rfl⟩ : ∃ m, n = m + 1 := ⟨n - 1, by omega⟩
      rw [parseElems]
      cases t with
      | nil =>
        have hx : sizeJ x ≤ m := by
          have := nat_le_max_left (sizeJ x) (sizeL JsonList.nil)
          omega
        rw [show dumpsArr (.cons x .nil) = dumps x from rfl]
        simp only [(ih m (by omega)).1 x (']' :: r) hx
          (noDigitHead_cons _ (by decide)), skipWs_rsq]
        simp
      | cons y u =>
        have hx : sizeJ x ≤ m := by
          have := nat_le_max_left (sizeJ x) (sizeL (JsonList.cons y u))
          omega
        have h2 : sizeL (.cons y u) ≤ m := by
          have := nat_le_max_right (sizeJ x) (sizeL (JsonList.cons y u))
          omega
        rw [show dumpsArr (.cons x (.cons y u))
            = dumps x ++ ',' :: dumpsArr (.cons y u) from rfl,
          List.append_assoc, List.cons_append]
        simp only [(ih m (by omega)).1 x (',' :: (dumpsArr (.cons y u) ++ ']' :: r))
          hx (noDigitHead_cons _ (by decide)), skipWs_comma]
        simp only [(ih m (by omega)).2.1 (.cons y u) r (by simp) h2]
        simp
  · intro ms r hne hsz
    cases ms with
    | nil => exact absurd rfl hne
    | cons k v t =>
      have h1 : 1 + Nat.max (sizeJ v) (sizeM t) ≤ n := by
        simpa [sizeM] using hsz
      obtain ⟨m, rfl⟩ : ∃ m, n = m + 1 := ⟨n - 1, by omega⟩
      rw [parseMembers]
      cases t with
      | nil =>
        have hd2 : dumpsObj (.cons k v .nil) ++ rbrace :: r
            = '"' :: (escape k ++ '"' :: (':' :: (dumps v ++ rbrace :: r))) := by
          rw [dumpsObj, dumpsKey]
          simp
        have hv : sizeJ v ≤ m := by
          have := nat_le_max_left (sizeJ v) (sizeM JsonMembers.nil)
          omega
        rw [hd2, skipWs_quot]
        simp only [parseStringBody_escape, skipWs_colon,
          (ih m (by omega)).1 v (rbrace :: r) hv
            (noDigitHead_cons _ (by decide)), skipWs_rbrace]
        simp [rbrace_ne_comma]
      | cons k2 v2 u =>
        have hd2 : dumpsObj (.cons k v (.cons k2 v2 u)) ++ rbrace :: r
            = '"' :: (escape k ++ '"' :: (':' :: (dumps v
                ++ ',' :: (dumpsObj (.cons k2 v2 u) ++ rbrace :: r)))) := by
          rw [dumpsObj, dumpsKey]
          simp
        have hv : sizeJ v ≤ m := by
          have := nat_le_max_left (sizeJ v) (sizeM (JsonMembers.cons k2 v2 u))
          omega
        have h2 : sizeM (.cons k2 v2 u) ≤ m := by
          have := nat_le_max_right (sizeJ v) (sizeM (JsonMembers.cons k2 v2 u))
          omega
        rw [hd2, skipWs_quot]
        simp only [parseStringBody_escape, skipWs_colon,
          (ih m (by omega)).1 v (',' :: (dumpsObj (.cons k2 v2 u) ++ rbrace :: r))
            hv (noDigitHead_cons _ (by decide)), skipWs_comma,
          (ih m (by omega)).2.2 (.cons k2 v2 u) r (by simp) h2]
        simp

theorem nat_max_le (a b c : Nat) (h1 : a ≤ c) (h2 : b ≤ c) : Nat.max a b ≤ c :=
  max_le h1 h2

theorem sizes_le : ∀ N : Nat,
    (∀ v : Json, sizeOf v ≤ N → sizeJ v ≤ (dumps v).length + 1) ∧
    (∀ xs : JsonList, sizeOf xs ≤ N → sizeL xs ≤ (dumpsArr xs).length + 2) ∧
    (∀ ms : JsonMembers, sizeOf ms ≤ N → sizeM ms ≤ (dumpsObj ms).length + 2) := by
  intro N
  induction N using Nat.strong_induction_on with
  | _ N ih =>
  refine ⟨?_, ?_, ?_⟩
  · intro v hv
    cases v with
    | null => simp only [sizeJ]; omega
    | bool b => simp only [sizeJ]; omega
    | num i => simp only [sizeJ]; omega
    | str s => simp only [sizeJ]; omega
    | arr xs =>
      have hlt : sizeOf xs < N := by
        have hs : sizeOf (Json.arr xs) = 1 + sizeOf xs := by simp
        omega
      have hxs := (ih (sizeOf xs) hlt).2.1 xs le_rfl
      have hlen : (dumps (Json.arr xs)).length = 2 + (dumpsArr xs).length := by
        rw [show dumps (Json.arr xs) = '[' :: dumpsArr xs ++ [']'] from rfl]
        simp
        omega
      simp only [sizeJ, hlen]
      omega
    | obj ms =>
      have hlt : sizeOf ms < N := by
        have hs : sizeOf (Json.obj ms) = 1 + sizeOf ms := by simp
        omega
      have hms := (ih (sizeOf ms) hlt).2.2 ms le_rfl
      have hlen : (dumps (Json.obj ms)).length = 2 + (dumpsObj ms).length := by
        rw [show dumps (Json.obj ms) = lbrace :: dumpsObj ms ++ [rbrace] from rfl]
        simp
        omega
      simp only [sizeJ, hlen]
      omega
  · intro xs hxs
    cases xs with
    | nil => simp only [sizeL]; omega
    | cons x t =>
      have hsz : sizeOf (JsonList.cons x t) = 1 + sizeOf x + sizeOf t := by simp
      have hx := (ih (sizeOf x) (by omega)).1 x le_rfl
      have ht := (ih (sizeOf t) (by omega)).2.1 t le_rfl
      cases t with
      | nil =>
        rw [show dumpsArr (.cons x .nil) = dumps x from rfl,
          show sizeL (.cons x .nil) = 1 + Nat.max (sizeJ x) (sizeL .nil) from rfl]
        have h0 : sizeL JsonList.nil = 0 := rfl
        have hmax := nat_max_le (sizeJ x) (sizeL .nil) ((dumps x).length + 1)
          hx (by omega)
        omega
      | cons y u =>
        rw [show dumpsArr (.cons x (.cons y u))
            = dumps x ++ ',' :: dumpsArr (.cons y u) from rfl,
          show sizeL (.cons x (.cons y u))
            = 1 + Nat.max (sizeJ x) (sizeL (.cons y u)) from rfl]
        have hmax := nat_max_le (sizeJ x) (sizeL (.cons y u))
          ((dumps x).length + 1 + (dumpsArr (.cons y u)).length + 1)
          (by omega) (by omega)
        have hlen : (dumps x ++ ',' :: dumpsArr (.cons y u)).length
            = (dumps x).length + 1 + (dumpsArr (.cons y u)).length := by
          simp
          omega
        omega
  · intro ms hms
    cases ms with
    | nil => simp only [sizeM]; omega
    | cons k v t =>
      have hsz : sizeOf (JsonMembers.cons k v t)
          = 1 + sizeOf k + sizeOf v + sizeOf t := by simp
      have hv := (ih (sizeOf v) (by omega)).1 v le_rfl
      have ht := (ih (sizeOf t) (by omega)).2.2 t le_rfl
      cases t with
      | nil =>
        rw [show dumpsObj (.cons k v .nil) = dumpsKey k ++ ':' :: dumps v from rfl,
          show sizeM (.cons k v .nil) = 1 + Nat.max (sizeJ v) (sizeM .nil) from rfl]
        have h0 : sizeM JsonMembers.nil = 0 := rfl
        have hmax := nat_max_le (sizeJ v) (sizeM .nil) ((dumps v).length + 1)
          hv (by omega)
        have hlen : (dumpsKey k ++ ':' :: dumps v).length
            = (dumpsKey k).length + 1 + (dumps v).length := by
          simp
          omega
        omega
      | cons k2 v2 u =>
        rw [show dumpsObj (.cons k v (.cons k2 v2 u))
            = dumpsKey k ++ ':' :: dumps v ++ ',' :: dumpsObj (.cons k2 v2 u) from rfl,
          show sizeM (.cons k v (.cons k2 v2 u))
            = 1 + Nat.max (sizeJ v) (sizeM (.cons k2 v2 u)) from rfl]
        have hmax := nat_max_le (sizeJ v) (sizeM (.cons k2 v2 u))
          ((dumps v).length + 1 + (dumpsObj (.cons k2 v2 u)).length + 1)
          (by omega) (by omega)
        have hlen : (dumpsKey k ++ ':' :: dumps v ++ ',' :: dumpsObj (.cons k2 v2 u)).length
            = (dumpsKey k).length + 1 + (dumps v).length + 1
              + (dumpsObj (.cons k2 v2 u)).length := by
          simp
          omega
        omega

theorem sizeJ_le_dumps (v : Json) : sizeJ v ≤ (dumps v).length + 1 :=
  (sizes_le (sizeOf v)).1 v le_rfl

/-- The serializer/parser roundtrip: re-parsing a compact serialization
yields the original value, key order and all. -/
theorem loads_dumps (v : Json) : loads (dumps v) = some v := by
  rw [loads]
  have h := (parse_dumps_main ((dumps v).length + 1)).1 v [] (sizeJ_le_dumps v) trivial
  rw [List.append_nil] at h
  rw [h]
  rfl

/-! ### Pipeline facts -/

/-- Any record handed to the series helper is exactly the one built at
lines 201-215, from a successful payload normalization and query decode. -/
theorem afterRequest_record_eq {ε : Type} (l : List Int) (ns : Option (List Char))
    (hasCb : Bool) (req : RequestView) (resp : ResponseView) (sink : Except ε Unit)
    (sti rt : List Char) (r : Record)
    (hrec : (afterRequest l ns hasCb req resp sink sti rt).record = some r) :
    ∃ payload qs,
      reqPayload (jsonExpected (headersDict req.headers)) req.body = .ok payload ∧
      queryStringDecoded req.query_string = .ok qs ∧
      r = buildRecord ns req resp payload qs sti rt := by
  unfold afterRequest at hrec
  by_cases hlog : logResponse l resp.status_code = false
  · rw [if_pos hlog] at hrec
    simp at hrec
  · rw [if_neg hlog] at hrec
    rcases hp : reqPayload (jsonExpected (headersDict req.headers)) req.body with e | payload
    · rw [hp] at hrec
      simp at hrec
    · rw [hp] at hrec
      rcases hq : queryStringDecoded req.query_string with e | qs
      · rw [hq] at hrec
        simp at hrec
      · rw [hq] at hrec
        rcases sink with e | u
        · simp at hrec
          exact ⟨payload, qs, rfl, rfl, hrec.symm⟩
        · simp at hrec
          exact ⟨payload, qs, rfl, rfl, hrec.symm⟩

/-! ### Concrete requests and responses used as test vectors -/

def jsonStatusOk : Json := .obj (.cons ("status".data) (.str ("ok".data)) .nil)

/-- Scenario A request: `GET /check`, no body, no headers. -/
def reqCheckGet : RequestView :=
  { path := "/check".data, method := "GET".data,
    remote_addr := some ("127.0.0.1".data), full_path := "/check?".data,
    query_string := [], headers := [], body := [] }

/-- A request whose raw query-string bytes are not valid UTF-8. -/
def reqBadQuery : RequestView :=
  { path := "/check".data, method := "GET".data,
    remote_addr := some ("127.0.0.1".data), full_path := "/check?".data,
    query_string := [255], headers := [], body := [] }

/-- A request whose raw query-string bytes are a truncated UTF-8 sequence. -/
def reqBadQuery2 : RequestView :=
  { path := "/data".data, method := "POST".data, remote_addr := none,
    full_path := "/data?".data, query_string := [195],
    headers := [], body := [] }

/-- A non-JSON request whose body bytes are not valid UTF-8. -/
def reqBadBody : RequestView :=
  { path := "/upload".data, method := "POST".data, remote_addr := none,
    full_path := "/upload?".data, query_string := [],
    headers := [["Content-Type".data, "text/plain".data]], body := [255] }

/-- A request declaring `application/json` whose body is not valid JSON. -/
def reqBadJson : RequestView :=
  { path := "/check".data, method := "POST".data, remote_addr := none,
    full_path := "/check?".data, query_string := [],
    headers := [["Content-Type".data, "application/json".data]],
    body := "not json".data.map Char.toNat }

/-- A 200 response with a JSON body (scenario A). -/
def respOkJson : ResponseView :=
  { status_code := 200, content_type := "application/json".data,
    data := some (dumps jsonStatusOk) }

/-- A 200 plain-text response. -/
def respPlain : ResponseView :=
  { status_code := 200, content_type := "text/html".data,
    data := some ("x".data) }

/-- A 200 response declaring JSON whose body does not parse as JSON. -/
def respBadJson : ResponseView :=
  { status_code := 200, content_type := "application/json".data,
    data := some ("oops".data) }

/-! ### Claim theorems -/

/-- C1: the claim says no exception from the logging pipeline ever escapes
the hook and the response is always returned.  The code however decodes the
query string with `except UnicodeEncodeError` around `.decode('utf-8')`,
which does not catch the `UnicodeDecodeError` actually raised: on query
bytes `[0xFF]` the exception escapes the hook and no response is returned
by it. -/
theorem C1_decode_error_escapes :
    (afterRequest [] none false reqBadQuery respOkJson
        (.ok () : Except Unit Unit) [] []).error = some PyErr.unicodeDecodeError ∧
    (afterRequest [] none false reqBadQuery respOkJson
        (.ok () : Except Unit Unit) [] []).returned = none :=
  ⟨rfl, rfl⟩

/-- C2: the claim says that with an empty allowlist exactly one commit
attempt occurs.  On a request whose non-JSON body bytes are `[0xFF]` the
payload decode raises an uncaught `UnicodeDecodeError` before the commit,
so zero commit attempts occur although the filter decided to log. -/
theorem C2_no_commit_attempt_on_decode_error :
    logResponse [] 200 = true ∧
    (afterRequest [] none false reqBadBody respPlain
        (.ok () : Except Unit Unit) [] []).commits = 0 ∧
    (afterRequest [] none false reqBadBody respPlain
        (.ok () : Except Unit Unit) [] []).error = some PyErr.unicodeDecodeError :=
  ⟨rfl, rfl, rfl⟩

/-- C3: the error callback receives exactly the originating error, exactly
once, precisely when a commit attempt happened, the sink raised, and a
callback is registered; it is never invoked on success, on a dropped
request, on a run aborted before commit, or when no callback exists.
Moreover a run that attempted a commit never lets an exception escape: the
sink error is swallowed (discarded when no callback is registered). -/
theorem C3_callback_exactly_on_failed_commit {ε : Type} (l : List Int)
    (ns : Option (List Char)) (hasCb : Bool) (req : RequestView)
    (resp : ResponseView) (sink : Except ε Unit) (sti rt : List Char) :
    ((afterRequest l ns hasCb req resp sink sti rt).callbackCalls
      = if (afterRequest l ns hasCb req resp sink sti rt).commits = 1 ∧ hasCb = true
        then (match sink with
              | .error e => [e]
              | .ok _ => [])
        else []) ∧
    ((afterRequest l ns hasCb req resp sink sti rt).commits = 0 ∨
      (afterRequest l ns hasCb req resp sink sti rt).error = none) := by
  unfold afterRequest
  by_cases hlog : logResponse l resp.status_code = false
  · rw [if_pos hlog]
    simp
  · rw [if_neg hlog]
    rcases hp : reqPayload (jsonExpected (headersDict req.headers)) req.body with e | payload
    · simp
    · rcases hq : queryStringDecoded req.query_string with e | qs
      · simp
      · rcases sink with e | u
        · cases hasCb <;> simp
        · simp

/-- C4 counterexample: for a declared-JSON request whose body fails to
parse, the committed record's payload field is Python `None`, not the empty
string the claim requires. -/
theorem C4_counterexample :
    ((afterRequest [] none false reqBadJson respOkJson
        (.ok () : Except Unit Unit) [] []).record.map Record.payload) = some none ∧
    ((afterRequest [] none false reqBadJson respOkJson
        (.ok () : Except Unit Unit) [] []).record.map Record.payload)
      ≠ some (some ([] : List Char)) := by
  refine ⟨rfl, ?_⟩
  rw [show ((afterRequest [] none false reqBadJson respOkJson
      (.ok () : Except Unit Unit) [] []).record.map Record.payload) = some none from rfl]
  simp

/-- C4 (amended): on request-side JSON parse failure the payload field is
Python `None` (a null marker, not the empty string); on response-side JSON
parse failure the response field is the raw text unchanged. -/
theorem C4_payload_null_response_passthrough {ε : Type} (l : List Int)
    (ns : Option (List Char)) (hasCb : Bool) (req : RequestView)
    (resp : ResponseView) (sink : Except ε Unit) (sti rt : List Char) (r : Record)
    (hjson : jsonExpected (headersDict req.headers) = true)
    (hparse : getJsonSilent req.body = none)
    (hct : resp.content_type = "application/json".data)
    (hrparse : loads (respDataOf resp) = none)
    (hrec : (afterRequest l ns hasCb req resp sink sti rt).record = some r) :
    r.payload = none ∧ r.response = respDataOf resp := by
  obtain ⟨payload, qs, hp, hq, rfl⟩ :=
    afterRequest_record_eq l ns hasCb req resp sink sti rt r hrec
  constructor
  · rw [hjson] at hp
    rw [reqPayload] at hp
    simp only [if_pos] at hp
    rw [hparse] at hp
    simpa [buildRecord] using hp.symm
  · show normRespData resp.content_type (respDataOf resp) = respDataOf resp
    rw [normRespData, if_pos hct, hrparse]

/-- C4 witness record: the record committed for `reqBadJson`/`respBadJson`. -/
def recC4 : Record :=
  { time := [], namespace_ := none, path := "/check".data, method := "POST".data,
    remote_addr := none, full_path := "/check?".data, payload := none,
    headers := headersJsonChars (headersDict reqBadJson.headers),
    status_code := 200, query_string := [], response := "oops".data,
    response_time := [], response_content_type := "application/json".data }

/-- C4 witness: the amended claim instantiated on a concrete run. -/
theorem C4_payload_null_response_passthrough_witness :
    recC4.payload = none ∧ recC4.response = respDataOf respBadJson :=
  C4_payload_null_response_passthrough [] none false reqBadJson respBadJson
    (.ok () : Except Unit Unit) [] [] recC4 rfl rfl rfl rfl rfl

/-- C5: the claim says malformed UTF-8 query bytes yield an empty
`query_string` and a completed pipeline.  The code's `except
UnicodeEncodeError` does not catch the `UnicodeDecodeError` raised by
`.decode('utf-8')`, so the pipeline aborts with the exception escaping and
no record is built. -/
theorem C5_query_decode_raises :
    (afterRequest [] none false reqBadQuery2 respPlain
        (.ok () : Except Unit Unit) [] []).error = some PyErr.unicodeDecodeError ∧
    (afterRequest [] none false reqBadQuery2 respPlain
        (.ok () : Except Unit Unit) [] []).record = none ∧
    (afterRequest [] none false reqBadQuery2 respPlain
        (.ok () : Except Unit Unit) [] []).commits = 0 :=
  ⟨rfl, rfl, rfl⟩

def isBuiltEvent : Event → Bool
  | .built => true
  | _ => false

def isFilteredEvent : Event → Bool
  | .filtered _ => true
  | _ => false

/-- The ordering asserted by the spec: every build event strictly precedes
the filter evaluation. -/
def claimBuildBeforeFilter (t : List Event) : Bool :=
  match t.findIdx? isBuiltEvent, t.findIdx? isFilteredEvent with
  | some i, some j => decide (i < j)
  | _, _ => true

/-- C6 counterexample: in a successful, logged run the trace is
`started, filtered, built, commit` — the filter evaluation precedes record
construction, contradicting the claimed `Built before Filtered` order. -/
theorem C6_counterexample :
    claimBuildBeforeFilter (afterRequest [] none false reqCheckGet respOkJson
      (.ok () : Except Unit Unit) [] []).trace = false := rfl

/-- C6 (amended): filter evaluation strictly precedes record construction,
which strictly precedes the commit attempt; a dropped request is terminal
with no build, an aborted run stops after the filter, and every branch is
terminal with at most one commit attempt. -/
theorem C6_filter_then_build_then_commit {ε : Type} (l : List Int)
    (ns : Option (List Char)) (hasCb : Bool) (req : RequestView)
    (resp : ResponseView) (sink : Except ε Unit) (sti rt : List Char) :
    (afterRequest l ns hasCb req resp sink sti rt).trace
        = [.started, .filtered false] ∨
    ((afterRequest l ns hasCb req resp sink sti rt).error.isSome ∧
      (afterRequest l ns hasCb req resp sink sti rt).trace
        = [.started, .filtered true]) ∨
    (∃ ok, (afterRequest l ns hasCb req resp sink sti rt).trace
        = [.started, .filtered true, .built, .commitAttempt ok]) := by
  unfold afterRequest
  by_cases hlog : logResponse l resp.status_code = false
  · rw [if_pos hlog]
    left
    rfl
  · rw [if_neg hlog]
    rcases hp : reqPayload (jsonExpected (headersDict req.headers)) req.body with e | payload
    · right
      left
      exact ⟨rfl, rfl⟩
    · rcases hq : queryStringDecoded req.query_string with e | qs
      · right
        left
        exact ⟨rfl, rfl⟩
      · rcases sink with e | u
        · right
          right
          exact ⟨false, rfl⟩
        · right
          right
          exact ⟨true, rfl⟩

/-- C7 counterexample: when the namespace option is absent (`None`), the
committed record's namespace tag is `None` — a null tag, contradicting the
claim that tag fields are never null. -/
theorem C7_counterexample :
    ((afterRequest [] none false reqCheckGet respOkJson
        (.ok () : Except Unit Unit) [] []).record.map Record.namespace_) = some none :=
  rfl

/-- C7 (amended): the path and method tags always equal the request's
strings (never null by construction); the namespace tag equals the
configured value verbatim, and is null exactly when the option is absent. -/
theorem C7_tags_namespace_verbatim {ε : Type} (l : List Int)
    (ns : Option (List Char)) (hasCb : Bool) (req : RequestView)
    (resp : ResponseView) (sink : Except ε Unit) (sti rt : List Char) (r : Record)
    (hrec : (afterRequest l ns hasCb req resp sink sti rt).record = some r) :
    r.namespace_ = ns ∧ r.path = req.path ∧ r.method = req.method := by
  obtain ⟨payload, qs, -, -, rfl⟩ :=
    afterRequest_record_eq l ns hasCb req resp sink sti rt r hrec
  exact ⟨rfl, rfl, rfl⟩

/-- C7 witness record: the record committed for `reqCheckGet`/`respOkJson`
under namespace `app`. -/
def recC7 : Record :=
  { time := [], namespace_ := some ("app".data), path := "/check".data,
    method := "GET".data, remote_addr := some ("127.0.0.1".data),
    full_path := "/check?".data, payload := some [],
    headers := headersJsonChars (headersDict reqCheckGet.headers),
    status_code := 200, query_string := [], response := dumps jsonStatusOk,
    response_time := [], response_content_type := "application/json".data }

/-- C7 witness: the amended claim instantiated on a concrete run. -/
theorem C7_tags_namespace_verbatim_witness :
    recC7.namespace_ = some ("app".data) ∧ recC7.path = reqCheckGet.path ∧
    recC7.method = reqCheckGet.method :=
  C7_tags_namespace_verbatim [] (some ("app".data)) false reqCheckGet respOkJson
    (.ok () : Except Unit Unit) [] [] recC7 rfl

/-- C8: for an `application/json` response whose body is a serialization of
a JSON value `v`, the committed record's response field is exactly the
compact serialization `dumps v` (no inserted whitespace, member order
preserved) and parses back to `v`. -/
theorem C8_response_roundtrip {ε : Type} (l : List Int)
    (ns : Option (List Char)) (hasCb : Bool) (req : RequestView)
    (resp : ResponseView) (sink : Except ε Unit) (sti rt : List Char)
    (s : List Char) (v : Json) (r : Record)
    (hct : resp.content_type = "application/json".data)
    (hdata : resp.data = some s)
    (hparse : loads s = some v)
    (hrec : (afterRequest l ns hasCb req resp sink sti rt).record = some r) :
    r.response = dumps v ∧ loads r.response = some v := by
  obtain ⟨payload, qs, -, -, rfl⟩ :=
    afterRequest_record_eq l ns hasCb req resp sink sti rt r hrec
  have hsfield : respDataOf resp = s := by rw [respDataOf, hdata]
  have hfield : normRespData resp.content_type (respDataOf resp) = dumps v := by
    rw [normRespData, if_pos hct, hsfield, hparse]
  refine ⟨hfield, ?_⟩
  show loads (normRespData resp.content_type (respDataOf resp)) = some v
  rw [hfield, loads_dumps]

/-- C8 witness record: the record committed for `reqCheckGet`/`respOkJson`. -/
def recC8 : Record :=
  { time := [], namespace_ := none, path := "/check".data,
    method := "GET".data, remote_addr := some ("127.0.0.1".data),
    full_path := "/check?".data, payload := some [],
    headers := headersJsonChars (headersDict reqCheckGet.headers),
    status_code := 200, query_string := [], response := dumps jsonStatusOk,
    response_time := [], response_content_type := "application/json".data }

/-- C8 witness: the roundtrip claim instantiated on scenario A. -/
theorem C8_response_roundtrip_witness :
    recC8.response = dumps jsonStatusOk ∧ loads recC8.response = some jsonStatusOk :=
  C8_response_roundtrip [] none false reqCheckGet respOkJson
    (.ok () : Except Unit Unit) [] [] (dumps jsonStatusOk) jsonStatusOk recC8
    rfl rfl (loads_dumps jsonStatusOk) rfl

/-- C9 counterexample: when the measurement option is absent
(`config.get` yields `None`), the measurement name stays `None`; it does
not default to `response_log` as the claim states, because `None == ''` is
false in Python. -/
theorem C9_counterexample :
    initMeasurement none = none ∧
    (none : Option (List Char)) ≠ some ("response_log".data) := by
  exact ⟨rfl, by simp⟩

/-- C9 (amended): the `response_log` default applies exactly when the
measurement option is present and equal to the empty string; an absent
option leaves the measurement name `None`, and any other string is kept. -/
theorem C9_default_only_for_empty_string :
    initMeasurement (some []) = some ("response_log".data) ∧
    initMeasurement none = none ∧
    ∀ s : List Char, s ≠ [] → initMeasurement (some s) = some s := by
  refine ⟨rfl, rfl, ?_⟩
  intro s hs
  rw [initMeasurement, if_neg hs]

/-- C9 witness: the amended default behaviour evaluated on concrete
configuration values. -/
theorem C9_default_only_for_empty_string_witness :
    initMeasurement (some []) = some ("response_log".data) ∧
    initMeasurement none = none ∧
    initMeasurement (some ("api_log".data)) = some ("api_log".data) :=
  ⟨C9_default_only_for_empty_string.1, C9_default_only_for_empty_string.2.1,
    C9_default_only_for_empty_string.2.2 ("api_log".data) (by simp)⟩

/-- C10: a configured allowlist value that is not a list — absent (`None`),
an integer, a string, a boolean — is replaced by the empty list at
initialization, so the status filter logs every response; the substitution
is a total function and never raises. -/
theorem C10_nonlist_allowlist_logs_all (v : ConfVal) (h : v.isList = false) :
    initStatusList v = [] ∧
    ∀ s : Int, logResponse (initStatusList v) s = true := by
  have hv : initStatusList v = [] := by
    cases v with
    | list l => simp [ConfVal.isList] at h
    | pyNone => rfl
    | int n => rfl
    | str s => rfl
    | bool b => rfl
  refine ⟨hv, ?_⟩
  intro s
  rw [hv, logResponse, filterStatusCode]
  simp

/-- C10 witness: an integer-valued allowlist option behaves as the empty
allowlist at a concrete status code. -/
theorem C10_nonlist_allowlist_logs_all_witness :
    ConfVal.isList (ConfVal.int 5) = false ∧
    (initStatusList (ConfVal.int 5) = [] ∧
      ∀ s : Int, logResponse (initStatusList (ConfVal.int 5)) s = true) :=
  ⟨rfl, C10_nonlist_allowlist_logs_all (ConfVal.int 5) rfl⟩

end ResponseLog
